import Mathlib

/-!
Verification development for the Download-Manager repository
(source files: index.js / index.cjs).

The repository is an interactive CLI that materializes remote GitHub
repositories onto local disk.  This file gives a shallow embedding of the
core functions (`fetchRepoFiles`, `downloadFile`, `handleDownload`,
`removeWithRetries`, `handleUninstall`, `handleUpdate`, `startRepo`) and
proves the specification's testable properties about them.

Modelling conventions:
- The local filesystem is a finite association list from file path to file
  content (`FS`).  Directories are implicit: a directory exists exactly when
  some file lives under it (faithful for the behaviors considered here,
  where folder-existence checks are made against installed folders that
  contain files).  `fs-extra`'s `ensureDir` is therefore a no-op in the
  model.
- Network transport is an oracle: for file downloads, a function from the
  attempt index to `none` (the axios GET threw) or `some body` (the
  response body).  The raw-content URL is determined by (repo, branch,
  filePath); since every claim fixes repo and branch, transports are keyed
  by the file path.
- The interactive `prompts` answers are boolean parameters.
- `setTimeout` backoff waits are recorded as a list of waited durations in
  milliseconds.
- The external `npm install` step (`installDependencies`) spawns a shell
  process and is outside the filesystem model; it never touches the
  materialized file set in the embedding.
-/

/-- One record of the catalog file `available.json`:
`{name, repo, branch?, folder, startFile?}`. -/
structure CatalogEntry where
  name : String
  repo : String
  branch : String := "main"
  folder : String
  startFile : Option String := none
deriving Repr, DecidableEq

/-- One entry of the GitHub tree-listing response: a path and a type
discriminator ("blob", "tree", "commit"/submodule, ...). -/
structure RemoteFileEntry where
  path : String
  type : String
deriving Repr, DecidableEq

/-- The local filesystem: file path to file content. -/
abbrev FS := List (String × String)

/-- Path `p` lies under directory `d`: it begins with `d ++ "/"`.
(The prefix test is on the character lists of the strings.) -/
def underDir (d p : String) : Bool :=
  (d ++ "/").data.isPrefixOf p.data

/-- `fs.existsSync` on a file path. -/
def FS.fileExists (fs : FS) (p : String) : Bool :=
  fs.any (fun e => e.1 == p)

/-- `fs.existsSync` on a directory path: some file lives strictly under it. -/
def FS.folderExists (fs : FS) (d : String) : Bool :=
  fs.any (fun e => underDir d e.1)

/-- `fs.writeFile`: (over)write one file. -/
def FS.writeFile (fs : FS) (p c : String) : FS :=
  (p, c) :: fs.filter (fun e => e.1 != p)

/-- `fs.remove` on a directory: recursive delete of everything under it. -/
def FS.removeDir (fs : FS) (d : String) : FS :=
  fs.filter (fun e => !underDir d e.1)

/-- The paths currently present under a directory. -/
def FS.filesUnder (fs : FS) (d : String) : List String :=
  (fs.map (fun e => e.1)).filter (fun p => underDir d p)

/-- `path.join(a, b)` for a relative slash-separated `b`. -/
def pathJoin (a b : String) : String := a ++ "/" ++ b

/-- Outcome of a JS async function that either returned or threw. -/
inductive JsResult where
  | ok
  | err (msg : String)
deriving Repr, DecidableEq

/-- Outcome of one `downloadFile` call: resulting filesystem, files written
(path, content), number of attempts made, backoff delays observed (ms), and
whether the call returned or threw. -/
structure FetchOutcome where
  fs : FS
  writes : List (String × String)
  attempts : Nat
  delays : List Nat
  result : JsResult
deriving Repr, DecidableEq

/-- The `for (let i = 0; i <= retries; i++)` loop body of `downloadFile`
(index.js lines 32-45, index.cjs lines 82-95), by structural recursion on
the number of remaining iterations; `i` is the current attempt index.
On a successful attempt the parent directory is ensured (implicit here)
and the body is written; on a failing attempt, if `i === retries` the
error "Retry limit reached." is thrown, otherwise a 1000 ms backoff is
waited and the loop continues. -/
def downloadFileAux (transport : Nat → Option String) (destPath : String)
    (fs : FS) (i : Nat) : Nat → FetchOutcome
  | 0 => ⟨fs, [], 0, [], .ok⟩
  | rem + 1 =>
    match transport i with
    | some body => ⟨fs.writeFile destPath body, [(destPath, body)], 1, [], .ok⟩
    | none =>
      if rem = 0 then
        ⟨fs, [], 1, [], .err "Retry limit reached."⟩
      else
        let o := downloadFileAux transport destPath fs (i + 1) rem
        ⟨o.fs, o.writes, o.attempts + 1, 1000 :: o.delays, o.result⟩

/-- `downloadFile(repo, branch, filePath, destPath, retries = 3)`:
up to `retries + 1` total attempts. -/
def downloadFile (transport : Nat → Option String) (destPath : String)
    (fs : FS) (retries : Nat := 3) : FetchOutcome :=
  downloadFileAux transport destPath fs 0 (retries + 1)

/-- A tree-listing request to the hosting API.  `recursive` records whether
the URL carried `?recursive=1`. -/
structure TreeRequest where
  repo : String
  branch : String
  recursive : Bool
deriving Repr, DecidableEq

/-- The hosting API's tree endpoint: a request either yields the `tree`
array of the response or throws. -/
abbrev TreeApi := TreeRequest → Except String (List RemoteFileEntry)

/-- Embedding of `fetchRepoFiles(repo, branch = "main")` (index.js lines
26-30, index.cjs lines 76-80): one GET of
`.../git/trees/<branch>?recursive=1`, then
`response.data.tree.filter(file => file.type === "blob")`.
Returns the list of requests issued together with the outcome. -/
def fetchRepoFiles (api : TreeApi) (repo : String)
    (branch : String := "main") :
    List TreeRequest × Except String (List RemoteFileEntry) :=
  let req : TreeRequest := ⟨repo, branch, true⟩
  ([req], (api req).map (fun tree => tree.filter (fun f => f.type == "blob")))

/-- Per-file transport oracle: the raw-content URL is determined by
(repo, branch, filePath); with repo and branch fixed for one
materialization, outcomes are keyed by the file path and attempt index. -/
abbrev Transport := String → Nat → Option String

/-- The `for (let i = 0; i < files.length; i++)` loop of `handleDownload`
(index.js lines 88-93, index.cjs lines 138-143): for each listed file,
`downloadFile` into `path.join(targetFolder, f.path)`; the first throw
aborts the remaining files.  Returns the filesystem, the write log and the
outcome. -/
def downloadLoop (transport : Transport) (targetFolder : String) :
    List RemoteFileEntry → FS → FS × List (String × String) × JsResult
  | [], fs => (fs, [], .ok)
  | f :: rest, fs =>
    let o := downloadFile (transport f.path) (pathJoin targetFolder f.path) fs
    match o.result with
    | .ok =>
      let (fs', ws, r) := downloadLoop transport targetFolder rest o.fs
      (fs', o.writes ++ ws, r)
    | .err e => (o.fs, o.writes, .err e)

/-- Outcome discriminator of one `handleDownload` call. -/
inductive DownloadStatus where
  | declined
  | failed (msg : String)
  | ok
deriving Repr, DecidableEq

/-- Observable outcome of one `handleDownload` call: resulting filesystem,
file writes performed, recursive deletes performed, tree-listing requests
issued, and how the call ended. -/
structure DownloadResult where
  fs : FS
  writes : List (String × String)
  deletes : List String
  requests : List TreeRequest
  status : DownloadStatus
deriving Repr, DecidableEq

/-- The `try` block of `handleDownload` (index.js lines 80-100, index.cjs
lines 130-150): one `fetchRepoFiles` call, then the sequential download
loop; any throw is caught and reported (`✘ Error downloading ...`), with no
cleanup of files already written.  The trailing `installDependencies` step
spawns an external `npm install` process and is outside the filesystem
model. -/
def materialize (api : TreeApi) (transport : Transport)
    (item : CatalogEntry) (fs : FS) : DownloadResult :=
  let targetFolder := item.folder
  let (reqs, res) := fetchRepoFiles api item.repo item.branch
  match res with
  | .error e => ⟨fs, [], [], reqs, .failed e⟩
  | .ok files =>
    let (fs', ws, r) := downloadLoop transport targetFolder files fs
    match r with
    | .ok => ⟨fs', ws, [], reqs, .ok⟩
    | .err e => ⟨fs', ws, [], reqs, .failed e⟩

/-- Embedding of `handleDownload(item)` (index.js lines 64-101, index.cjs
lines 114-151).  `targetFolder` is `path.join(__dirname, folder)`; paths
are modelled relative to the install root `__dirname`, so the target is
`item.folder` itself.  If the folder exists, the user is asked to confirm
overwrite (`overwriteAnswer`); declining returns at once, confirming
recursively deletes the folder first.  Then the try-block materializes. -/
def handleDownload (overwriteAnswer : Bool) (api : TreeApi)
    (transport : Transport) (item : CatalogEntry) (fs : FS) :
    DownloadResult :=
  if fs.folderExists item.folder then
    if overwriteAnswer then
      let r := materialize api transport item (fs.removeDir item.folder)
      { r with deletes := item.folder :: r.deletes }
    else ⟨fs, [], [], [], .declined⟩
  else materialize api transport item fs

/-- Outcome of one `fs.remove`-with-retries call: resulting filesystem,
attempts made, backoff delays observed (ms), and whether it returned or
threw. -/
structure RemoveOutcome where
  fs : FS
  attempts : Nat
  delays : List Nat
  result : JsResult
deriving Repr, DecidableEq

/-- The `for (let i = 0; i < retries; i++)` loop body of
`removeWithRetries` (index.js lines 103-113), by structural recursion on
the remaining iterations; `deleteOk i` tells whether attempt `i`'s
`fs.remove` succeeds (a failing attempt throws and is modelled as leaving
the filesystem unchanged).  On the last iteration (`i === retries - 1`) a
failure rethrows; otherwise a `delayMs` backoff is waited. -/
def removeWithRetriesAux (deleteOk : Nat → Bool) (folder : String)
    (delayMs : Nat) (fs : FS) (i : Nat) : Nat → RemoveOutcome
  | 0 => ⟨fs, 0, [], .ok⟩
  | rem + 1 =>
    if deleteOk i then ⟨fs.removeDir folder, 1, [], .ok⟩
    else if rem = 0 then ⟨fs, 1, [], .err "delete failed"⟩
    else
      let o := removeWithRetriesAux deleteOk folder delayMs fs (i + 1) rem
      ⟨o.fs, o.attempts + 1, delayMs :: o.delays, o.result⟩

/-- `removeWithRetries(folder, retries = 5, delayMs = 500)`
(index.js lines 103-113): `retries` total attempts. -/
def removeWithRetries (deleteOk : Nat → Bool) (folder : String) (fs : FS)
    (retries : Nat := 5) (delayMs : Nat := 500) : RemoveOutcome :=
  removeWithRetriesAux deleteOk folder delayMs fs 0 retries

/-- Outcome discriminator of one `handleUninstall` call. -/
inductive UninstallStatus where
  | nothingTo
  | declined
  | ok
  | failed (msg : String)
deriving Repr, DecidableEq

/-- Observable outcome of one `handleUninstall` call. -/
structure UninstallResult where
  fs : FS
  attempts : Nat
  delays : List Nat
  status : UninstallStatus
deriving Repr, DecidableEq

/-- Embedding of `handleUninstall(item)` (index.js lines 115-135): if the
folder exists, ask for confirmation (`confirmAnswer`); when confirmed, run
`removeWithRetries` with its defaults and catch any rethrown failure
(`Failed to uninstall ...`); when the folder does not exist, print
`Nothing to uninstall.`. -/
def handleUninstall (confirmAnswer : Bool) (deleteOk : Nat → Bool)
    (item : CatalogEntry) (fs : FS) : UninstallResult :=
  if fs.folderExists item.folder then
    if confirmAnswer then
      let o := removeWithRetries deleteOk item.folder fs
      match o.result with
      | .ok => ⟨o.fs, o.attempts, o.delays, .ok⟩
      | .err e => ⟨o.fs, o.attempts, o.delays, .failed e⟩
    else ⟨fs, 0, [], .declined⟩
  else ⟨fs, 0, [], .nothingTo⟩

/-- Embedding of `handleUpdate(item)` (index.js lines 137-141, index.cjs
lines 171-175): `handleUninstall` unconditionally followed by
`handleDownload`, threading the filesystem through. -/
def handleUpdate (confirmAnswer overwriteAnswer : Bool)
    (deleteOk : Nat → Bool) (api : TreeApi) (transport : Transport)
    (item : CatalogEntry) (fs : FS) : UninstallResult × DownloadResult :=
  let u := handleUninstall confirmAnswer deleteOk item fs
  (u, handleDownload overwriteAnswer api transport item u.fs)

namespace Cjs

/-- Embedding of `handleUninstall(item)` in the `index.cjs` variant (lines
153-169): identical confirmation flow, but the recursive delete is a single
un-retried `await fs.remove(fullPath)`; `deleteOk 0` tells whether that one
attempt succeeds, and a failure propagates out (recorded as `.failed`). -/
def handleUninstall (confirmAnswer : Bool) (deleteOk : Nat → Bool)
    (item : CatalogEntry) (fs : FS) : UninstallResult :=
  if fs.folderExists item.folder then
    if confirmAnswer then
      if deleteOk 0 then ⟨fs.removeDir item.folder, 1, [], .ok⟩
      else ⟨fs, 1, [], .failed "delete failed"⟩
    else ⟨fs, 0, [], .declined⟩
  else ⟨fs, 0, [], .nothingTo⟩

end Cjs

/-- JavaScript `a || b` on an optional string: `undefined` and the empty
string (both falsy) fall through to the default. -/
def jsOrDefault (v : Option String) (d : String) : String :=
  match v with
  | none => d
  | some s => if s = "" then d else s

/-- Observable outcome of one `startRepo` call: the (unchanged) filesystem,
the path handed to the spawned `node` process when a launch happened, and
the reported error message otherwise.  The launch is fire-and-forget:
`exec` is not awaited, so no completion state exists. -/
structure StartResult where
  fs : FS
  launched : Option String
  errorMsg : Option String
deriving Repr, DecidableEq

/-- Embedding of `startRepo(item)` (index.js lines 143-158): requires the
repo folder to exist, then the start file (`item.startFile || "index.js"`)
to exist inside it; otherwise reports an error and does nothing.  On
success it spawns `start cmd /k node "<startPath>"` and returns without
waiting. -/
def startRepo (item : CatalogEntry) (fs : FS) : StartResult :=
  if !fs.folderExists item.folder then
    ⟨fs, none, some (item.name ++ " is not installed.")⟩
  else
    let startFile := jsOrDefault item.startFile "index.js"
    let startPath := pathJoin item.folder startFile
    if !fs.fileExists startPath then
      ⟨fs, none, some ("Start file " ++ startFile ++ " not found in " ++
        item.name ++ ".")⟩
    else ⟨fs, some startPath, none⟩

/-- Sequential `fs.writeFile` of a list of (path, content) pairs, in the
order the materialization loop performs them. -/
def writeAll (fs : FS) : List (String × String) → FS
  | [] => fs
  | w :: rest => writeAll (fs.writeFile w.1 w.2) rest

/-- The specification's demo catalog entry
`{name:"Demo", repo:"org/demo", branch:"main", folder:"demo"}`. -/
def demoItem : CatalogEntry :=
  { name := "Demo", repo := "org/demo", folder := "demo" }

/-- The specification's demo remote tree:
`[{path:"index.js",type:"blob"}, {path:"src/",type:"tree"},
{path:"src/a.js",type:"blob"}]`. -/
def demoTree : List RemoteFileEntry :=
  [⟨"index.js", "blob"⟩, ⟨"src/", "tree"⟩, ⟨"src/a.js", "blob"⟩]

/-- A hosting API that answers every tree request with the demo tree. -/
def demoApi : TreeApi := fun _ => .ok demoTree

/-- A transport that succeeds on the first attempt for every file. -/
def demoTransport : Transport := fun p _ => some ("content:" ++ p)

/-- A transport that always fails for `src/a.js` and succeeds on the first
attempt for every other file. -/
def demoTransportFailA : Transport := fun p _ =>
  if p = "src/a.js" then none else some ("content:" ++ p)

/-- A demo on-disk state: the `demo` folder is installed with one stale
file that no longer exists in the remote tree. -/
def demoInstalledFS : FS :=
  [("demo/old.js", "stale"), ("other/keep.js", "kept")]

/-- The transport for one file eventually succeeds within the default
retry budget (fails `k ≤ 3` times, then delivers `bodyOf` its path). -/
def EventuallyOk (transport : Transport) (bodyOf : String → String)
    (f : RemoteFileEntry) : Prop :=
  ∃ k, k ≤ 3 ∧ (∀ j, j < k → transport f.path j = none) ∧
    transport f.path k = some (bodyOf f.path)

/-! ## Theorems -/

/-- One-step unfolding of the fetch retry loop on a failing, non-final
attempt. -/
theorem downloadFileAux_step_none (transport : Nat → Option String)
    (destPath : String) (fs : FS) (i rem : Nat)
    (h : transport i = none) (hrem : rem ≠ 0) :
    downloadFileAux transport destPath fs i (rem + 1) =
      (fun o => FetchOutcome.mk o.fs o.writes (o.attempts + 1)
          (1000 :: o.delays) o.result)
        (downloadFileAux transport destPath fs (i + 1) rem) := by
  simp only [downloadFileAux, h]
  simp [hrem]

/-- If the transport fails on attempts `i..i+k-1` and succeeds on attempt
`i+k` with `body`, and `k` more iterations remain after the current one,
the fetch loop writes `body` to `destPath`, makes `k + 1` attempts and
waits `k` backoffs of 1000 ms. -/
theorem downloadFileAux_eventually_ok
    (transport : Nat → Option String) (destPath : String) (fs : FS)
    (body : String) :
    ∀ (k i rem : Nat), k ≤ rem →
      (∀ j, j < k → transport (i + j) = none) →
      transport (i + k) = some body →
      downloadFileAux transport destPath fs i (rem + 1) =
        ⟨fs.writeFile destPath body, [(destPath, body)], k + 1,
          List.replicate k 1000, .ok⟩ := by
  intro k
  induction k with
  | zero =>
    intro i rem _ _ hk
    simp only [Nat.add_zero] at hk
    simp [downloadFileAux, hk, List.replicate]
  | succ k ih =>
    intro i rem hle hfail hk
    obtain ⟨rem', rfl⟩ : ∃ rem', rem = rem' + 1 :=
      ⟨rem - 1, by omega⟩
    have h0 : transport i = none := by
      have := hfail 0 (Nat.succ_pos k)
      simpa using this
    have hrec := ih (i + 1) rem' (by omega)
      (fun j hj => by
        have := hfail (j + 1) (by omega)
        simpa [Nat.add_assoc, Nat.add_comm 1 j] using this)
      (by
        have : i + 1 + k = i + (k + 1) := by omega
        rw [this]; exact hk)
    rw [downloadFileAux_step_none transport destPath fs i (rem' + 1) h0
      (by omega), hrec]
    simp [List.replicate]

/-- If the transport fails on every attempt `i..i+rem`, the fetch loop
makes `rem + 1` attempts, waits `rem` backoffs, throws, and writes
nothing. -/
theorem downloadFileAux_all_fail
    (transport : Nat → Option String) (destPath : String) (fs : FS) :
    ∀ (rem i : Nat), (∀ j, j ≤ rem → transport (i + j) = none) →
      downloadFileAux transport destPath fs i (rem + 1) =
        ⟨fs, [], rem + 1, List.replicate rem 1000,
          .err "Retry limit reached."⟩ := by
  intro rem
  induction rem with
  | zero =>
    intro i hfail
    have h0 : transport i = none := by simpa using hfail 0 (Nat.le_refl 0)
    simp [downloadFileAux, h0, List.replicate]
  | succ rem ih =>
    intro i hfail
    have h0 : transport i = none := by simpa using hfail 0 (Nat.zero_le _)
    have hrec := ih (i + 1) (fun j hj => by
      have := hfail (j + 1) (by omega)
      simpa [Nat.add_assoc, Nat.add_comm 1 j] using this)
    rw [downloadFileAux_step_none transport destPath fs i (rem + 1) h0
      (by omega), hrec]
    simp [List.replicate]

/-- Joining a relative path onto a folder lands under that folder. -/
theorem underDir_pathJoin (d x : String) : underDir d (pathJoin d x) = true := by
  have h : (pathJoin d x).data = (d ++ "/").data ++ x.data := by
    simp [pathJoin, String.data_append, List.append_assoc]
  simp only [underDir, h, List.isPrefixOf_iff_prefix]
  exact List.prefix_append _ _

/-- Path membership after one `writeFile`. -/
theorem mem_map_fst_writeFile (fs : FS) (p c : String) (q : String) :
    q ∈ (fs.writeFile p c).map Prod.fst ↔ q = p ∨ q ∈ fs.map Prod.fst := by
  simp only [FS.writeFile, List.map_cons, List.mem_cons, List.mem_map,
    List.mem_filter, bne_iff_ne, ne_eq]
  by_cases hq : q = p
  · subst hq; tauto
  · constructor
    · rintro (rfl | ⟨e, ⟨he, _⟩, rfl⟩)
      · exact Or.inl rfl
      · exact Or.inr ⟨e, he, rfl⟩
    · rintro (rfl | ⟨e, he, rfl⟩)
      · exact Or.inl rfl
      · exact Or.inr ⟨e, ⟨he, fun h => hq h⟩, rfl⟩

/-- Path membership after a sequence of writes. -/
theorem mem_map_fst_writeAll (ws : List (String × String)) :
    ∀ (fs : FS) (q : String),
      q ∈ (writeAll fs ws).map Prod.fst ↔
        q ∈ ws.map Prod.fst ∨ q ∈ fs.map Prod.fst := by
  induction ws with
  | nil => intro fs q; simp [writeAll]
  | cons w rest ih =>
    intro fs q
    simp only [writeAll, List.map_cons, List.mem_cons]
    rw [ih, mem_map_fst_writeFile]
    tauto

/-- Path membership after a recursive folder delete. -/
theorem mem_map_fst_removeDir (fs : FS) (d q : String) :
    q ∈ (fs.removeDir d).map Prod.fst ↔
      q ∈ fs.map Prod.fst ∧ underDir d q = false := by
  simp only [FS.removeDir, List.mem_map, List.mem_filter, Bool.not_eq_true']
  constructor
  · rintro ⟨e, ⟨he, hu⟩, rfl⟩
    exact ⟨⟨e, he, rfl⟩, hu⟩
  · rintro ⟨⟨e, he, rfl⟩, hu⟩
    exact ⟨e, ⟨he, hu⟩, rfl⟩

/-- Membership in the file listing of a folder. -/
theorem mem_filesUnder (fs : FS) (d p : String) :
    p ∈ fs.filesUnder d ↔ p ∈ fs.map Prod.fst ∧ underDir d p = true := by
  simp [FS.filesUnder, List.mem_filter]

/-- After recursively deleting a folder, the folder no longer exists. -/
theorem folderExists_removeDir (fs : FS) (d : String) :
    (fs.removeDir d).folderExists d = false := by
  simp only [FS.folderExists, FS.removeDir, List.any_eq_false]
  intro e he
  rw [List.mem_filter] at he
  simpa using he.2

/-- After deleting a folder and then writing only files that lie under it,
the folder's file listing is exactly the written paths. -/
theorem filesUnder_writeAll_removeDir (fs : FS) (d : String)
    (ws : List (String × String)) (hws : ∀ w ∈ ws, underDir d w.1 = true) :
    ∀ p, p ∈ (writeAll (fs.removeDir d) ws).filesUnder d ↔
      p ∈ ws.map Prod.fst := by
  intro p
  rw [mem_filesUnder, mem_map_fst_writeAll]
  constructor
  · rintro ⟨h | h, hu⟩
    · exact h
    · rw [mem_map_fst_removeDir] at h
      rw [h.2] at hu
      exact absurd hu (by simp)
  · intro h
    refine ⟨Or.inl h, ?_⟩
    obtain ⟨w, hw, rfl⟩ := List.mem_map.mp h
    exact hws w hw

/-- If every listed file's transport eventually succeeds, the download loop
writes each file once, in listing order, at the joined destination path,
and returns normally. -/
theorem downloadLoop_all_ok (transport : Transport) (folder : String)
    (bodyOf : String → String) :
    ∀ (files : List RemoteFileEntry) (fs : FS),
      (∀ f ∈ files, EventuallyOk transport bodyOf f) →
      downloadLoop transport folder files fs =
        (writeAll fs (files.map
            (fun f => (pathJoin folder f.path, bodyOf f.path))),
         files.map (fun f => (pathJoin folder f.path, bodyOf f.path)),
         .ok) := by
  intro files
  induction files with
  | nil => intro fs _; simp [downloadLoop, writeAll]
  | cons f rest ih =>
    intro fs h
    obtain ⟨k, hk3, hfail, hsucc⟩ := h f (List.mem_cons_self f rest)
    have hdl : downloadFile (transport f.path) (pathJoin folder f.path) fs =
        ⟨fs.writeFile (pathJoin folder f.path) (bodyOf f.path),
         [(pathJoin folder f.path, bodyOf f.path)], k + 1,
         List.replicate k 1000, .ok⟩ := by
      unfold downloadFile
      exact downloadFileAux_eventually_ok _ _ _ _ k 0 3 hk3
        (by simpa using hfail) (by simpa using hsucc)
    have hrest := ih (fs.writeFile (pathJoin folder f.path) (bodyOf f.path))
      (fun g hg => h g (List.mem_cons_of_mem f hg))
    simp [downloadLoop, hdl, hrest, writeAll]

/-- If the files before `bad` all eventually succeed and `bad`'s transport
fails on every attempt, the download loop writes exactly the earlier files,
keeps them on disk, writes nothing from `bad` on, and throws. -/
theorem downloadLoop_fail_after (transport : Transport) (folder : String)
    (bodyOf : String → String) (bad : RemoteFileEntry)
    (rest : List RemoteFileEntry)
    (hbad : ∀ j, j ≤ 3 → transport bad.path j = none) :
    ∀ (done : List RemoteFileEntry) (fs : FS),
      (∀ f ∈ done, EventuallyOk transport bodyOf f) →
      downloadLoop transport folder (done ++ bad :: rest) fs =
        (writeAll fs (done.map
            (fun f => (pathJoin folder f.path, bodyOf f.path))),
         done.map (fun f => (pathJoin folder f.path, bodyOf f.path)),
         .err "Retry limit reached.") := by
  intro done
  induction done with
  | nil =>
    intro fs _
    have hdl : downloadFile (transport bad.path) (pathJoin folder bad.path) fs =
        ⟨fs, [], 4, List.replicate 3 1000, .err "Retry limit reached."⟩ := by
      unfold downloadFile
      exact downloadFileAux_all_fail _ _ _ 3 0 (by simpa using hbad)
    simp [downloadLoop, hdl, writeAll]
  | cons f done' ih =>
    intro fs h
    obtain ⟨k, hk3, hfail, hsucc⟩ := h f (List.mem_cons_self f done')
    have hdl : downloadFile (transport f.path) (pathJoin folder f.path) fs =
        ⟨fs.writeFile (pathJoin folder f.path) (bodyOf f.path),
         [(pathJoin folder f.path, bodyOf f.path)], k + 1,
         List.replicate k 1000, .ok⟩ := by
      unfold downloadFile
      exact downloadFileAux_eventually_ok _ _ _ _ k 0 3 hk3
        (by simpa using hfail) (by simpa using hsucc)
    have hrest := ih (fs.writeFile (pathJoin folder f.path) (bodyOf f.path))
      (fun g hg => h g (List.mem_cons_of_mem f hg))
    simp [downloadLoop, hdl, hrest, writeAll]

/-- One-step unfolding of the delete retry loop on a failing, non-final
attempt. -/
theorem removeWithRetriesAux_step_fail (deleteOk : Nat → Bool)
    (folder : String) (delayMs : Nat) (fs : FS) (i rem : Nat)
    (h : deleteOk i = false) (hrem : rem ≠ 0) :
    removeWithRetriesAux deleteOk folder delayMs fs i (rem + 1) =
      (fun o => RemoveOutcome.mk o.fs (o.attempts + 1)
          (delayMs :: o.delays) o.result)
        (removeWithRetriesAux deleteOk folder delayMs fs (i + 1) rem) := by
  simp only [removeWithRetriesAux, h]
  simp [hrem]

/-- If the delete fails on attempts `i..i+m-1` and succeeds on attempt
`i+m`, with `m < rem` iterations remaining, the delete loop removes the
folder after `m + 1` attempts with `m` backoffs of `delayMs`. -/
theorem removeWithRetriesAux_eventually_ok (deleteOk : Nat → Bool)
    (folder : String) (delayMs : Nat) (fs : FS) :
    ∀ (m i rem : Nat), m ≤ rem →
      (∀ j, j < m → deleteOk (i + j) = false) →
      deleteOk (i + m) = true →
      removeWithRetriesAux deleteOk folder delayMs fs i (rem + 1) =
        ⟨fs.removeDir folder, m + 1, List.replicate m delayMs, .ok⟩ := by
  intro m
  induction m with
  | zero =>
    intro i rem _ _ hk
    simp only [Nat.add_zero] at hk
    simp [removeWithRetriesAux, hk, List.replicate]
  | succ m ih =>
    intro i rem hle hfail hk
    obtain ⟨rem', rfl⟩ : ∃ rem', rem = rem' + 1 := ⟨rem - 1, by omega⟩
    have h0 : deleteOk i = false := by
      have := hfail 0 (Nat.succ_pos m)
      simpa using this
    have hrec := ih (i + 1) rem' (by omega)
      (fun j hj => by
        have := hfail (j + 1) (by omega)
        simpa [Nat.add_assoc, Nat.add_comm 1 j] using this)
      (by
        have : i + 1 + m = i + (m + 1) := by omega
        rw [this]; exact hk)
    rw [removeWithRetriesAux_step_fail deleteOk folder delayMs fs i
      (rem' + 1) h0 (by omega), hrec]
    simp [List.replicate]

/-- If the delete fails on every attempt `i..i+rem`, the delete loop makes
`rem + 1` attempts, waits `rem` backoffs, rethrows, and leaves the
filesystem unchanged. -/
theorem removeWithRetriesAux_all_fail (deleteOk : Nat → Bool)
    (folder : String) (delayMs : Nat) (fs : FS) :
    ∀ (rem i : Nat), (∀ j, j ≤ rem → deleteOk (i + j) = false) →
      removeWithRetriesAux deleteOk folder delayMs fs i (rem + 1) =
        ⟨fs, rem + 1, List.replicate rem delayMs, .err "delete failed"⟩ := by
  intro rem
  induction rem with
  | zero =>
    intro i hfail
    have h0 : deleteOk i = false := by simpa using hfail 0 (Nat.le_refl 0)
    simp [removeWithRetriesAux, h0, List.replicate]
  | succ rem ih =>
    intro i hfail
    have h0 : deleteOk i = false := by simpa using hfail 0 (Nat.zero_le _)
    have hrec := ih (i + 1) (fun j hj => by
      have := hfail (j + 1) (by omega)
      simpa [Nat.add_assoc, Nat.add_comm 1 j] using this)
    rw [removeWithRetriesAux_step_fail deleteOk folder delayMs fs i
      (rem + 1) h0 (by omega), hrec]
    simp [List.replicate]

/-- C2: with the default `retries = 3`, if the transport fails exactly
`k < 4` times and then succeeds, `downloadFile` writes the eventually
successful response body to the destination after exactly `k` fixed
backoff delays of 1000 ms; if the transport fails on every attempt,
`downloadFile` makes exactly 4 attempts, throws "Retry limit reached.",
and writes no file. -/
theorem downloadFile_retry_contract :
    (∀ (transport : Nat → Option String) (destPath : String) (fs : FS)
        (body : String) (k : Nat), k < 4 →
      (∀ j, j < k → transport j = none) → transport k = some body →
      downloadFile transport destPath fs =
        ⟨fs.writeFile destPath body, [(destPath, body)], k + 1,
         List.replicate k 1000, .ok⟩) ∧
    (∀ (transport : Nat → Option String) (destPath : String) (fs : FS),
      (∀ j, j ≤ 3 → transport j = none) →
      downloadFile transport destPath fs =
        ⟨fs, [], 4, List.replicate 3 1000, .err "Retry limit reached."⟩) := by
  constructor
  · intro transport destPath fs body k hk hfail hsucc
    unfold downloadFile
    exact downloadFileAux_eventually_ok transport destPath fs body k 0 3
      (by omega) (by simpa using hfail) (by simpa using hsucc)
  · intro transport destPath fs hfail
    unfold downloadFile
    exact downloadFileAux_all_fail transport destPath fs 3 0
      (by simpa using hfail)

/-- Witness for `downloadFile_retry_contract`: a transport failing twice
then succeeding, and a transport that always fails, at concrete inputs. -/
theorem downloadFile_retry_contract_witness :
    downloadFile (fun n => if n < 2 then none else some "BODY") "demo/a.js"
        [] =
      ⟨[("demo/a.js", "BODY")], [("demo/a.js", "BODY")], 3,
       List.replicate 2 1000, .ok⟩ ∧
    downloadFile (fun _ => none) "demo/a.js" [] =
      ⟨[], [], 4, List.replicate 3 1000, .err "Retry limit reached."⟩ :=
  ⟨downloadFile_retry_contract.1 (fun n => if n < 2 then none else some "BODY")
      "demo/a.js" [] "BODY" 2 (by omega) (fun j hj => if_pos hj) rfl,
   downloadFile_retry_contract.2 (fun _ => none) "demo/a.js" []
      (fun j _ => rfl)⟩

/-- C7: `fetchRepoFiles` issues exactly one tree-listing request, with the
recursive flag set; on success it returns exactly the response entries
whose type is "blob", in listing order; it performs no retry (one request,
period); any failure propagates, and a failing tree listing aborts the
whole materialization with no write and no delete. -/
theorem fetchRepoFiles_contract :
    (∀ (api : TreeApi) (repo branch : String),
      (fetchRepoFiles api repo branch).1 = [⟨repo, branch, true⟩]) ∧
    (∀ (api : TreeApi) (repo branch : String) (tree : List RemoteFileEntry),
      api ⟨repo, branch, true⟩ = .ok tree →
      (fetchRepoFiles api repo branch).2 =
        .ok (tree.filter (fun f => f.type == "blob"))) ∧
    (∀ (api : TreeApi) (repo branch e : String),
      api ⟨repo, branch, true⟩ = .error e →
      (fetchRepoFiles api repo branch).2 = .error e) ∧
    (∀ (api : TreeApi) (transport : Transport) (item : CatalogEntry)
        (fs : FS) (e : String),
      api ⟨item.repo, item.branch, true⟩ = .error e →
      materialize api transport item fs =
        ⟨fs, [], [], [⟨item.repo, item.branch, true⟩], .failed e⟩) := by
  refine ⟨?_, ?_, ?_, ?_⟩
  · intro api repo branch
    simp [fetchRepoFiles]
  · intro api repo branch tree h
    simp [fetchRepoFiles, h, Except.map]
  · intro api repo branch e h
    simp [fetchRepoFiles, h, Except.map]
  · intro api transport item fs e h
    simp [materialize, fetchRepoFiles, h, Except.map]

/-- Witness for `fetchRepoFiles_contract` at concrete inputs: the demo API
and a failing API. -/
theorem fetchRepoFiles_contract_witness :
    (fetchRepoFiles demoApi "org/demo" "main").1 =
      [⟨"org/demo", "main", true⟩] ∧
    (fetchRepoFiles demoApi "org/demo" "main").2 =
      .ok [⟨"index.js", "blob"⟩, ⟨"src/a.js", "blob"⟩] ∧
    (fetchRepoFiles (fun _ => .error "boom") "org/demo" "main").2 =
      .error "boom" ∧
    materialize (fun _ => .error "boom") demoTransport demoItem
        demoInstalledFS =
      ⟨demoInstalledFS, [], [], [⟨"org/demo", "main", true⟩],
       .failed "boom"⟩ := by
  refine ⟨fetchRepoFiles_contract.1 demoApi "org/demo" "main", ?_,
    fetchRepoFiles_contract.2.2.1 (fun _ => .error "boom") "org/demo" "main"
      "boom" rfl,
    fetchRepoFiles_contract.2.2.2 (fun _ => .error "boom") demoTransport
      demoItem demoInstalledFS "boom" rfl⟩
  have h := fetchRepoFiles_contract.2.1 demoApi "org/demo" "main" demoTree rfl
  rw [h]
  rfl

/-- C6: when the destination folder already exists and the user declines
the overwrite confirmation, `handleDownload` performs no delete, no
tree-listing request, and no write, and returns the filesystem unchanged,
so repeating it is idempotent on the filesystem. -/
theorem handleDownload_decline_noop (api : TreeApi) (transport : Transport)
    (item : CatalogEntry) (fs : FS)
    (hexists : fs.folderExists item.folder = true) :
    handleDownload false api transport item fs = ⟨fs, [], [], [], .declined⟩ := by
  simp [handleDownload, hexists]

/-- Witness for `handleDownload_decline_noop`: declining overwrite on the
installed demo folder changes nothing. -/
theorem handleDownload_decline_noop_witness :
    FS.folderExists demoInstalledFS "demo" = true ∧
    handleDownload false demoApi demoTransport demoItem demoInstalledFS =
      ⟨demoInstalledFS, [], [], [], .declined⟩ :=
  ⟨by decide,
   handleDownload_decline_noop demoApi demoTransport demoItem demoInstalledFS
     (by decide)⟩

/-- C10: when the user declines the uninstall confirmation,
`handleUninstall` performs no delete attempt and leaves the filesystem
unchanged, in both the index.js and the index.cjs variant. -/
theorem handleUninstall_decline_noop :
    (∀ (deleteOk : Nat → Bool) (item : CatalogEntry) (fs : FS),
      fs.folderExists item.folder = true →
      handleUninstall false deleteOk item fs = ⟨fs, 0, [], .declined⟩) ∧
    (∀ (deleteOk : Nat → Bool) (item : CatalogEntry) (fs : FS),
      fs.folderExists item.folder = true →
      Cjs.handleUninstall false deleteOk item fs = ⟨fs, 0, [], .declined⟩) := by
  constructor <;> intro deleteOk item fs h <;>
    simp [handleUninstall, Cjs.handleUninstall, h]

/-- Witness for `handleUninstall_decline_noop` on the installed demo
folder. -/
theorem handleUninstall_decline_noop_witness :
    handleUninstall false (fun _ => true) demoItem demoInstalledFS =
      ⟨demoInstalledFS, 0, [], .declined⟩ ∧
    Cjs.handleUninstall false (fun _ => true) demoItem demoInstalledFS =
      ⟨demoInstalledFS, 0, [], .declined⟩ :=
  ⟨handleUninstall_decline_noop.1 (fun _ => true) demoItem demoInstalledFS
     (by decide),
   handleUninstall_decline_noop.2 (fun _ => true) demoItem demoInstalledFS
     (by decide)⟩

/-- C1: with a reachable repository (the tree listing succeeds and every
blob's transport eventually succeeds within the retry budget),
`handleDownload` into a fresh folder writes exactly one local file per
blob-typed entry of the tree listing, at `<folder>/<relativePath>`, in
listing order, and writes no file for any non-blob entry (the write log is
exactly the map over the blob-filtered listing). -/
theorem handleDownload_writes_exactly_blobs
    (api : TreeApi) (transport : Transport) (bodyOf : String → String)
    (item : CatalogEntry) (fs : FS) (tree : List RemoteFileEntry)
    (ow : Bool)
    (hfresh : fs.folderExists item.folder = false)
    (hapi : api ⟨item.repo, item.branch, true⟩ = .ok tree)
    (htr : ∀ f ∈ tree.filter (fun f => f.type == "blob"),
      EventuallyOk transport bodyOf f) :
    handleDownload ow api transport item fs =
      ⟨writeAll fs ((tree.filter (fun f => f.type == "blob")).map
          (fun f => (pathJoin item.folder f.path, bodyOf f.path))),
       (tree.filter (fun f => f.type == "blob")).map
          (fun f => (pathJoin item.folder f.path, bodyOf f.path)),
       [], [⟨item.repo, item.branch, true⟩], .ok⟩ := by
  have hloop := downloadLoop_all_ok transport item.folder bodyOf
    (tree.filter (fun f => f.type == "blob")) fs htr
  simp [handleDownload, hfresh, materialize, fetchRepoFiles, hapi,
    Except.map, hloop]

/-- Witness for `handleDownload_writes_exactly_blobs`: the specification's
demo scenario.  The tree lists two blobs and one tree entry; exactly
`demo/index.js` and `demo/src/a.js` are written, and `src/` is never a
write target. -/
theorem handleDownload_writes_exactly_blobs_witness :
    handleDownload false demoApi demoTransport demoItem [] =
      ⟨[("demo/src/a.js", "content:src/a.js"),
        ("demo/index.js", "content:index.js")],
       [("demo/index.js", "content:index.js"),
        ("demo/src/a.js", "content:src/a.js")],
       [], [⟨"org/demo", "main", true⟩], .ok⟩ := by
  have h := handleDownload_writes_exactly_blobs demoApi demoTransport
    (fun p => "content:" ++ p) demoItem [] demoTree false rfl rfl
    (fun f _ => ⟨0, by omega, fun j hj => absurd hj (by omega), rfl⟩)
  rw [h]
  rfl

/-- C5: materialization is fail-fast without rollback.  If the blob listing
splits as `done ++ bad :: rest` and fetching `bad` exhausts its retries
while every file in `done` eventually succeeds, then `handleDownload`
writes exactly the files of `done` (each remains on disk, since the final
filesystem is the prior one extended by those writes), writes nothing from
`bad` on, deletes nothing, and reports the retry failure: the destination
folder is left in a partial state. -/
theorem handleDownload_fail_fast_no_rollback
    (api : TreeApi) (transport : Transport) (bodyOf : String → String)
    (item : CatalogEntry) (fs : FS) (tree : List RemoteFileEntry)
    (done : List RemoteFileEntry) (bad : RemoteFileEntry)
    (rest : List RemoteFileEntry) (ow : Bool)
    (hfresh : fs.folderExists item.folder = false)
    (hapi : api ⟨item.repo, item.branch, true⟩ = .ok tree)
    (hsplit : tree.filter (fun f => f.type == "blob") = done ++ bad :: rest)
    (hdone : ∀ f ∈ done, EventuallyOk transport bodyOf f)
    (hbad : ∀ j, j ≤ 3 → transport bad.path j = none) :
    handleDownload ow api transport item fs =
      ⟨writeAll fs (done.map
          (fun f => (pathJoin item.folder f.path, bodyOf f.path))),
       done.map (fun f => (pathJoin item.folder f.path, bodyOf f.path)),
       [], [⟨item.repo, item.branch, true⟩],
       .failed "Retry limit reached."⟩ := by
  have hloop := downloadLoop_fail_after transport item.folder bodyOf bad rest
    hbad done fs hdone
  simp [handleDownload, hfresh, materialize, fetchRepoFiles, hapi,
    Except.map, hsplit, hloop]

/-- Witness for `handleDownload_fail_fast_no_rollback`: in the demo
scenario with a transport that always fails for `src/a.js`,
`demo/index.js` is written and kept, nothing else is written, and the
download reports the retry failure. -/
theorem handleDownload_fail_fast_no_rollback_witness :
    handleDownload false demoApi demoTransportFailA demoItem [] =
      ⟨[("demo/index.js", "content:index.js")],
       [("demo/index.js", "content:index.js")],
       [], [⟨"org/demo", "main", true⟩],
       .failed "Retry limit reached."⟩ := by
  have h := handleDownload_fail_fast_no_rollback demoApi demoTransportFailA
    (fun p => "content:" ++ p) demoItem [] demoTree
    [⟨"index.js", "blob"⟩] ⟨"src/a.js", "blob"⟩ [] false rfl rfl
    (by decide)
    (fun f hf => ⟨0, by omega, fun j hj => absurd hj (by omega), by
      have : f = (⟨"index.js", "blob"⟩ : RemoteFileEntry) := by
        simpa using hf
      subst this
      rfl⟩)
    (fun j _ => rfl)
  rw [h]
  rfl

/-- Shared helper: a fresh-folder `handleDownload` with a reachable
repository writes exactly the blob files and succeeds. -/
theorem handleDownload_fresh_materializes
    (api : TreeApi) (transport : Transport) (bodyOf : String → String)
    (item : CatalogEntry) (fs : FS) (tree : List RemoteFileEntry)
    (ow : Bool)
    (hfresh : fs.folderExists item.folder = false)
    (hapi : api ⟨item.repo, item.branch, true⟩ = .ok tree)
    (htr : ∀ f ∈ tree.filter (fun f => f.type == "blob"),
      EventuallyOk transport bodyOf f) :
    handleDownload ow api transport item fs =
      ⟨writeAll fs ((tree.filter (fun f => f.type == "blob")).map
          (fun f => (pathJoin item.folder f.path, bodyOf f.path))),
       (tree.filter (fun f => f.type == "blob")).map
          (fun f => (pathJoin item.folder f.path, bodyOf f.path)),
       [], [⟨item.repo, item.branch, true⟩], .ok⟩ := by
  have hloop := downloadLoop_all_ok transport item.folder bodyOf
    (tree.filter (fun f => f.type == "blob")) fs htr
  simp [handleDownload, hfresh, materialize, fetchRepoFiles, hapi,
    Except.map, hloop]

/-- C3: `handleUpdate` is `handleUninstall` unconditionally followed by
`handleDownload` (first conjunct, definitional), and when the entry is
installed, the user confirms, the delete succeeds, the tree listing
succeeds and every blob's transport eventually succeeds, the updated
folder's file set equals exactly the blob paths of the remote tree at the
time of the call, regardless of the folder's previous contents. -/
theorem handleUpdate_refreshes_to_remote_blobs :
    (∀ (c o : Bool) (dk : Nat → Bool) (api : TreeApi) (t : Transport)
        (item : CatalogEntry) (fs : FS),
      handleUpdate c o dk api t item fs =
        (handleUninstall c dk item fs,
         handleDownload o api t item (handleUninstall c dk item fs).fs)) ∧
    (∀ (dk : Nat → Bool) (api : TreeApi) (transport : Transport)
        (bodyOf : String → String) (item : CatalogEntry) (fs : FS)
        (tree : List RemoteFileEntry) (ow : Bool),
      fs.folderExists item.folder = true →
      dk 0 = true →
      api ⟨item.repo, item.branch, true⟩ = .ok tree →
      (∀ f ∈ tree.filter (fun f => f.type == "blob"),
        EventuallyOk transport bodyOf f) →
      (handleUpdate true ow dk api transport item fs).1.status = .ok ∧
      (handleUpdate true ow dk api transport item fs).2.status = .ok ∧
      ∀ p, p ∈ ((handleUpdate true ow dk api transport
          item fs).2.fs.filesUnder item.folder) ↔
        p ∈ (tree.filter (fun f => f.type == "blob")).map
          (fun f => pathJoin item.folder f.path)) := by
  constructor
  · intro c o dk api t item fs
    rfl
  · intro dk api transport bodyOf item fs tree ow hinst hdk hapi htr
    have hu : handleUninstall true dk item fs =
        ⟨fs.removeDir item.folder, 1, [], .ok⟩ := by
      simp [handleUninstall, hinst, removeWithRetries,
        removeWithRetriesAux, hdk]
    have hfresh := folderExists_removeDir fs item.folder
    have hd := handleDownload_fresh_materializes api transport bodyOf item
      (fs.removeDir item.folder) tree ow hfresh hapi htr
    have hupd : handleUpdate true ow dk api transport item fs =
        (⟨fs.removeDir item.folder, 1, [], .ok⟩,
         handleDownload ow api transport item (fs.removeDir item.folder)) := by
      simp [handleUpdate, hu]
    refine ⟨by rw [hupd], by rw [hupd, hd], ?_⟩
    intro p
    rw [hupd]
    show p ∈ ((handleDownload ow api transport item
        (fs.removeDir item.folder)).fs.filesUnder item.folder) ↔ _
    rw [hd]
    have hmem := filesUnder_writeAll_removeDir fs item.folder
      ((tree.filter (fun f => f.type == "blob")).map
        (fun f => (pathJoin item.folder f.path, bodyOf f.path)))
      (by
        intro w hw
        obtain ⟨f, _, rfl⟩ := List.mem_map.mp hw
        exact underDir_pathJoin item.folder f.path) p
    rw [show ((⟨writeAll (fs.removeDir item.folder)
        ((tree.filter (fun f => f.type == "blob")).map
          (fun f => (pathJoin item.folder f.path, bodyOf f.path))),
        (tree.filter (fun f => f.type == "blob")).map
          (fun f => (pathJoin item.folder f.path, bodyOf f.path)),
        [], [⟨item.repo, item.branch, true⟩], .ok⟩ : DownloadResult)).fs =
      writeAll (fs.removeDir item.folder)
        ((tree.filter (fun f => f.type == "blob")).map
          (fun f => (pathJoin item.folder f.path, bodyOf f.path))) from rfl]
    rw [hmem]
    simp [List.map_map, Function.comp]

/-- Witness for `handleUpdate_refreshes_to_remote_blobs`: updating the
installed demo folder (which holds a stale `demo/old.js`) succeeds in both
phases and leaves under `demo` exactly the remote blobs `demo/index.js`
and `demo/src/a.js`; the stale file is gone. -/
theorem handleUpdate_refreshes_to_remote_blobs_witness :
    (handleUpdate true false (fun _ => true) demoApi demoTransport demoItem
      demoInstalledFS).1.status = .ok ∧
    (handleUpdate true false (fun _ => true) demoApi demoTransport demoItem
      demoInstalledFS).2.status = .ok ∧
    "demo/index.js" ∈ ((handleUpdate true false (fun _ => true) demoApi
      demoTransport demoItem demoInstalledFS).2.fs.filesUnder "demo") ∧
    "demo/src/a.js" ∈ ((handleUpdate true false (fun _ => true) demoApi
      demoTransport demoItem demoInstalledFS).2.fs.filesUnder "demo") ∧
    "demo/old.js" ∉ ((handleUpdate true false (fun _ => true) demoApi
      demoTransport demoItem demoInstalledFS).2.fs.filesUnder "demo") := by
  have h := handleUpdate_refreshes_to_remote_blobs.2 (fun _ => true) demoApi
    demoTransport (fun p => "content:" ++ p) demoItem demoInstalledFS
    demoTree false (by decide) rfl rfl
    (fun f _ => ⟨0, by omega, fun j hj => absurd hj (by omega), rfl⟩)
  refine ⟨h.1, h.2.1, ?_, ?_, ?_⟩
  · exact (h.2.2 "demo/index.js").mpr (by decide)
  · exact (h.2.2 "demo/src/a.js").mpr (by decide)
  · intro hmem
    have hcontra := (h.2.2 "demo/old.js").mp hmem
    revert hcontra
    decide

/-- C4 counterexample: a delete operation that fails once and would succeed
on the next attempt.  In the `index.cjs` variant, `handleUninstall` makes a
single attempt and fails with no retry and no backoff, so the claim's
5-attempt retry loop with 500 ms backoff does not hold for that variant's
Uninstall (the `index.js` variant, shown alongside, does retry and
succeed). -/
theorem cjs_uninstall_no_retry_counterexample :
    Cjs.handleUninstall true (fun i => decide (0 < i)) demoItem
        demoInstalledFS =
      ⟨demoInstalledFS, 1, [], .failed "delete failed"⟩ ∧
    handleUninstall true (fun i => decide (0 < i)) demoItem
        demoInstalledFS =
      ⟨[("other/keep.js", "kept")], 2, [500], .ok⟩ := by
  constructor <;> rfl

/-- C4 (amended): in the `index.js` variant, Uninstall runs the recursive
delete under `removeWithRetries`' loop of 5 total attempts with fixed
500 ms backoff: if the delete fails `m < 5` times then succeeds, uninstall
succeeds after `m` retries with 500 ms spacing; if it fails on all 5
attempts, the raised failure is reported and the folder still exists.  In
the `index.cjs` variant, uninstall performs at most a single delete
attempt, with no retry. -/
theorem handleUninstall_retry_contract :
    (∀ (dk : Nat → Bool) (item : CatalogEntry) (fs : FS) (m : Nat),
      fs.folderExists item.folder = true → m < 5 →
      (∀ j, j < m → dk j = false) → dk m = true →
      handleUninstall true dk item fs =
        ⟨fs.removeDir item.folder, m + 1, List.replicate m 500, .ok⟩) ∧
    (∀ (dk : Nat → Bool) (item : CatalogEntry) (fs : FS),
      fs.folderExists item.folder = true →
      (∀ j, j < 5 → dk j = false) →
      handleUninstall true dk item fs =
        ⟨fs, 5, List.replicate 4 500, .failed "delete failed"⟩ ∧
      (handleUninstall true dk item fs).fs.folderExists item.folder = true) ∧
    (∀ (dk : Nat → Bool) (item : CatalogEntry) (fs : FS),
      (Cjs.handleUninstall true dk item fs).attempts ≤ 1) := by
  refine ⟨?_, ?_, ?_⟩
  · intro dk item fs m hinst hm hfail hsucc
    have hrw := removeWithRetriesAux_eventually_ok dk item.folder 500 fs m 0 4
      (by omega) (by simpa using hfail) (by simpa using hsucc)
    simp [handleUninstall, hinst, removeWithRetries, hrw]
  · intro dk item fs hinst hfail
    have hrw := removeWithRetriesAux_all_fail dk item.folder 500 fs 4 0
      (fun j hj => by simpa using hfail j (by omega))
    constructor
    · simp [handleUninstall, hinst, removeWithRetries, hrw]
    · simp [handleUninstall, hinst, removeWithRetries, hrw]
  · intro dk item fs
    simp only [Cjs.handleUninstall]
    split_ifs <;> simp

/-- Witness for `handleUninstall_retry_contract`: a delete failing twice
then succeeding (2 retries, 500 ms spacing), a delete failing on all 5
attempts (folder still present), and the single-attempt bound of the
`index.cjs` variant, at concrete inputs. -/
theorem handleUninstall_retry_contract_witness :
    handleUninstall true (fun i => decide (1 < i)) demoItem demoInstalledFS =
      ⟨[("other/keep.js", "kept")], 3, [500, 500], .ok⟩ ∧
    handleUninstall true (fun _ => false) demoItem demoInstalledFS =
      ⟨demoInstalledFS, 5, List.replicate 4 500, .failed "delete failed"⟩ ∧
    (Cjs.handleUninstall true (fun _ => false) demoItem
      demoInstalledFS).attempts ≤ 1 := by
  refine ⟨?_, ?_,
    handleUninstall_retry_contract.2.2 (fun _ => false) demoItem
      demoInstalledFS⟩
  · have h := handleUninstall_retry_contract.1 (fun i => decide (1 < i))
      demoItem demoInstalledFS 2 (by decide) (by omega)
      (fun j hj => by interval_cases j <;> rfl) rfl
    rw [h]
    rfl
  · exact (handleUninstall_retry_contract.2.1 (fun _ => false) demoItem
      demoInstalledFS (by decide) (fun j _ => rfl)).1

/-- C8: `startRepo` launches only when both the entry's folder and the
start file inside it exist; if either is missing it reports an error,
changes no file, and launches nothing; on success it hands the start path
to the spawned process (fire-and-forget: the `exec` is not awaited, so the
returned state never depends on the launched process). -/
theorem startRepo_preconditions :
    (∀ (item : CatalogEntry) (fs : FS),
      fs.folderExists item.folder = false →
      startRepo item fs =
        ⟨fs, none, some (item.name ++ " is not installed.")⟩) ∧
    (∀ (item : CatalogEntry) (fs : FS),
      fs.folderExists item.folder = true →
      fs.fileExists (pathJoin item.folder
        (jsOrDefault item.startFile "index.js")) = false →
      startRepo item fs = ⟨fs, none, some ("Start file " ++
        jsOrDefault item.startFile "index.js" ++ " not found in " ++
        item.name ++ ".")⟩) ∧
    (∀ (item : CatalogEntry) (fs : FS),
      fs.folderExists item.folder = true →
      fs.fileExists (pathJoin item.folder
        (jsOrDefault item.startFile "index.js")) = true →
      startRepo item fs = ⟨fs, some (pathJoin item.folder
        (jsOrDefault item.startFile "index.js")), none⟩) := by
  refine ⟨?_, ?_, ?_⟩
  · intro item fs h
    simp [startRepo, h]
  · intro item fs h1 h2
    simp [startRepo, h1, h2]
  · intro item fs h1 h2
    simp [startRepo, h1, h2]

/-- Witness for `startRepo_preconditions`: missing folder, missing start
file, and successful launch, at concrete inputs. -/
theorem startRepo_preconditions_witness :
    startRepo demoItem [] = ⟨[], none, some "Demo is not installed."⟩ ∧
    startRepo demoItem demoInstalledFS =
      ⟨demoInstalledFS, none,
       some "Start file index.js not found in Demo."⟩ ∧
    startRepo demoItem [("demo/index.js", "code")] =
      ⟨[("demo/index.js", "code")], some "demo/index.js", none⟩ := by
  refine ⟨?_, ?_, ?_⟩
  · have h := startRepo_preconditions.1 demoItem [] rfl
    rw [h]
    rfl
  · have h := startRepo_preconditions.2.1 demoItem demoInstalledFS
      (by decide) (by decide)
    rw [h]
    rfl
  · have h := startRepo_preconditions.2.2 demoItem
      [("demo/index.js", "code")] (by decide) (by decide)
    rw [h]
    rfl

/-- C9: when the entry's `startFile` field is absent, `startRepo` uses
"index.js" as the start file: it checks for `<folder>/index.js` and
launches that path when present, and reports "index.js" missing
otherwise. -/
theorem startRepo_default_index_js :
    (∀ (item : CatalogEntry) (fs : FS),
      item.startFile = none →
      fs.folderExists item.folder = true →
      fs.fileExists (pathJoin item.folder "index.js") = true →
      startRepo item fs =
        ⟨fs, some (pathJoin item.folder "index.js"), none⟩) ∧
    (∀ (item : CatalogEntry) (fs : FS),
      item.startFile = none →
      fs.folderExists item.folder = true →
      fs.fileExists (pathJoin item.folder "index.js") = false →
      startRepo item fs = ⟨fs, none,
        some ("Start file index.js not found in " ++ item.name ++ ".")⟩) := by
  constructor
  · intro item fs hsf h1 h2
    simp [startRepo, h1, hsf, jsOrDefault, h2]
  · intro item fs hsf h1 h2
    simp [startRepo, h1, hsf, jsOrDefault, h2]

/-- Witness for `startRepo_default_index_js`: the demo entry has no
`startFile`, so `demo/index.js` is the checked and launched path. -/
theorem startRepo_default_index_js_witness :
    startRepo demoItem [("demo/index.js", "code"), ("demo/main.js", "m")] =
      ⟨[("demo/index.js", "code"), ("demo/main.js", "m")],
       some "demo/index.js", none⟩ ∧
    startRepo demoItem [("demo/main.js", "m")] =
      ⟨[("demo/main.js", "m")], none,
       some "Start file index.js not found in Demo."⟩ := by
  constructor
  · have h := startRepo_default_index_js.1 demoItem
      [("demo/index.js", "code"), ("demo/main.js", "m")] rfl (by decide)
      (by decide)
    rw [h]
    rfl
  · have h := startRepo_default_index_js.2 demoItem [("demo/main.js", "m")]
      rfl (by decide) (by decide)
    rw [h]
    rfl
